import Mathlib

/-!
Verification of the KalshiProto trading bot backend (src/backend/main.py).

The development shallowly embeds the decision pipeline of the bot:
order-book analysis, whale detection, signal generation, the
position-aware decision step, paper-mode order submission, and the
bounded whale/timeline event buffers.  Prices and sizes from the
order-book JSON are embedded as integers, ratios, scores and positions
as rationals.  Python subscripts that can raise IndexError are embedded
as Option-valued lookups, so a function that can raise returns Option.
-/

namespace KalshiProto

/-- One side of the raw order-book JSON: the key can be absent, present
but not a list, or a list of levels, each level a list of integers
(price at index 0, size at index 1, possibly too short). -/
inductive Side where
  | missing : Side
  | invalid : Side
  | levels : List (List ℤ) → Side
deriving DecidableEq

/-- Embeds the Python expression
orderbook.get(k, []) if isinstance(orderbook.get(k), list) else []. -/
def Side.toLevels : Side → List (List ℤ)
  | .levels ls => ls
  | _ => []

/-- The raw order book: the "yes" (bid) and "no" (ask) sides. -/
structure Orderbook where
  yes : Side
  no : Side
deriving DecidableEq

/-- The feature record returned by analyze_orderbook. -/
structure Features where
  bid_volume : ℤ
  ask_volume : ℤ
  bid_ratio : ℚ
  imbalance_strength : ℚ
  max_bid_size : ℤ
  max_ask_size : ℤ
  best_bid : ℤ
  best_ask : ℤ
  spread : ℤ
deriving DecidableEq

/-- The sizes of the levels with at least 2 fields, in order; embeds the
generator (level[1] for level in ls if len(level) >= 2).  The subscript
level[1] is an Option-valued lookup: it is only reached under the length
guard, which is what the totality theorem verifies. -/
def sizesOf : List (List ℤ) → Option (List ℤ)
  | [] => some []
  | l :: rest =>
      if 2 ≤ l.length then do
        let v ← l.get? 1
        let vs ← sizesOf rest
        some (v :: vs)
      else sizesOf rest

/-- Python max(values, default=d): d only when the list is empty. -/
def pymax (d : ℤ) : List ℤ → ℤ
  | [] => d
  | v :: vs => vs.foldl max v

/-- Embeds lvs[0][0] if lvs and len(lvs[0]) >= 2 else d. -/
def bestPrice (ls : List (List ℤ)) (d : ℤ) : Option ℤ :=
  match ls with
  | [] => some d
  | l0 :: _ => if 2 ≤ l0.length then l0.get? 0 else some d

/-- Embeds analyze_orderbook from src/backend/main.py.  Volumes sum the
valid levels among the first five of each side; max sizes range over all
valid levels; best bid/ask come from the first level of each side with
defaults 0 and 100; spread is best_ask - best_bid clamped at 0. -/
def analyze_orderbook (ob : Orderbook) : Option Features := do
  let yes_bids := ob.yes.toLevels
  let no_bids := ob.no.toLevels
  let bidSizes ← sizesOf (yes_bids.take 5)
  let askSizes ← sizesOf (no_bids.take 5)
  let bid_volume := bidSizes.sum
  let ask_volume := askSizes.sum
  let total_volume := bid_volume + ask_volume
  let bid_ratio : ℚ := if 0 < total_volume then (bid_volume : ℚ) / (total_volume : ℚ) else 1/2
  let imbalance_strength : ℚ := |bid_ratio - 1/2|
  let allBidSizes ← sizesOf yes_bids
  let allAskSizes ← sizesOf no_bids
  let max_bid_size := pymax 0 allBidSizes
  let max_ask_size := pymax 0 allAskSizes
  let best_bid ← bestPrice yes_bids 0
  let best_ask ← bestPrice no_bids 100
  some {
    bid_volume := bid_volume
    ask_volume := ask_volume
    bid_ratio := bid_ratio
    imbalance_strength := imbalance_strength
    max_bid_size := max_bid_size
    max_ask_size := max_ask_size
    best_bid := best_bid
    best_ask := best_ask
    spread := if best_bid < best_ask then best_ask - best_bid else 0
  }

/-- Total description of the valid-level sizes: filter the levels with
at least 2 fields and read index 1 (always in range there). -/
def validSizes (ls : List (List ℤ)) : List ℤ :=
  (ls.filter (fun l => decide (2 ≤ l.length))).map (fun l => l.getD 1 0)

/-- Total description of the best-price rule: the first level of the
side when it has at least 2 fields, the default otherwise. -/
def bestPriceOrD (ls : List (List ℤ)) (d : ℤ) : ℤ :=
  match ls with
  | [] => d
  | l0 :: _ => if 2 ≤ l0.length then l0.getD 0 0 else d

/-- Total counterpart of analyze_orderbook, describing the value the
analyzer returns on every input. -/
def analyzeT (ob : Orderbook) : Features :=
  let yes_bids := ob.yes.toLevels
  let no_bids := ob.no.toLevels
  let bid_volume := (validSizes (yes_bids.take 5)).sum
  let ask_volume := (validSizes (no_bids.take 5)).sum
  let total_volume := bid_volume + ask_volume
  let bid_ratio : ℚ := if 0 < total_volume then (bid_volume : ℚ) / (total_volume : ℚ) else 1/2
  let best_bid := bestPriceOrD yes_bids 0
  let best_ask := bestPriceOrD no_bids 100
  { bid_volume := bid_volume
    ask_volume := ask_volume
    bid_ratio := bid_ratio
    imbalance_strength := |bid_ratio - 1/2|
    max_bid_size := pymax 0 (validSizes yes_bids)
    max_ask_size := pymax 0 (validSizes no_bids)
    best_bid := best_bid
    best_ask := best_ask
    spread := if best_bid < best_ask then best_ask - best_bid else 0 }

lemma sizesOf_eq_validSizes (ls : List (List ℤ)) :
    sizesOf ls = some (validSizes ls) := by
  induction ls with
  | nil => rfl
  | cons l rest ih =>
      by_cases h : 2 ≤ l.length
      · obtain ⟨a, b, t, rfl⟩ : ∃ a b t, l = a :: b :: t := by
          match l, h with
          | a :: b :: t, _ => exact ⟨a, b, t, rfl⟩
        simp [sizesOf, ih, validSizes, List.filter_cons, List.getD]
      · simp [sizesOf, h, ih, validSizes, List.filter_cons]

lemma bestPrice_eq (ls : List (List ℤ)) (d : ℤ) :
    bestPrice ls d = some (bestPriceOrD ls d) := by
  match ls with
  | [] => rfl
  | l0 :: rest =>
      by_cases h : 2 ≤ l0.length
      · match l0, h with
        | a :: t, h =>
            have h1 : 1 ≤ t.length := by simpa using h
            simp [bestPrice, bestPriceOrD, h, h1, List.getD]
      · simp [bestPrice, bestPriceOrD, h]

lemma analyze_orderbook_eq_analyzeT (ob : Orderbook) :
    analyze_orderbook ob = some (analyzeT ob) := by
  simp [analyze_orderbook, analyzeT, sizesOf_eq_validSizes, bestPrice_eq]

/-- Signal direction. -/
inductive Direction where
  | BUY | SELL | HOLD
deriving DecidableEq

/-- A generated signal: direction and confidence score. -/
structure Signal where
  direction : Direction
  score : ℚ
deriving DecidableEq

/-- Embeds generate_signal from src/backend/main.py.  Every call site
passes the complete feature dict produced by analyze_orderbook, so the
two .get defaults are never taken and the inputs are plain rationals. -/
def generate_signal (bid_ratio imbalance : ℚ) : Signal :=
  if 0.15 < imbalance ∧ 0.55 < bid_ratio then ⟨.BUY, 0.6 + imbalance⟩
  else if 0.15 < imbalance ∧ bid_ratio < 0.45 then ⟨.SELL, 0.6 + imbalance⟩
  else ⟨.HOLD, 0.5⟩

/-- The per-ticker position map, embedding the Python dict
_state["positions"] as an insertion-ordered association list. -/
abbrev Positions : Type := List (String × ℚ)

/-- Embeds get_position: the stored size, 0 when the ticker is absent. -/
def get_position (ps : Positions) (t : String) : ℚ :=
  (List.lookup t ps).getD 0

/-- Embeds set_position: dict assignment, replacing the value in place
when the key exists and appending otherwise. -/
def set_position : Positions → String → ℚ → Positions
  | [], t, v => [(t, v)]
  | (t0, v0) :: rest, t, v =>
      if t0 = t then (t, v) :: rest else (t0, v0) :: set_position rest t v

/-- The trading action decided by process_signal. -/
inductive Action where
  | enter_long | enter_short | exit | hold
deriving DecidableEq

/-- The decision cascade of process_signal: from the prediction and the
position read before the decision, the action and the target position. -/
def decideAction (prediction position_before : ℚ) : Action × ℚ :=
  if 0.6 ≤ prediction ∧ position_before ≤ 0 then (.enter_long, 100)
  else if prediction ≤ 0.4 ∧ 0 ≤ position_before then (.enter_short, -100)
  else if position_before ≠ 0 ∧ (0.45 < prediction ∧ prediction < 0.55) then (.exit, 0)
  else (.hold, position_before)

/-- One signal-decision event, the record handed to
log_signal_decision (timestamp, model version and the feature JSON are
pass-through fields and are not modelled). -/
structure DecisionEvent where
  ticker : String
  decision_price : ℚ
  prediction : ℚ
  action : Action
  position_before : ℚ
  position_after : ℚ
deriving DecidableEq

/-- Result of one process_signal call: the returned action, the decision
events emitted during the call, and the positions map after the call. -/
structure ProcessResult where
  action : Action
  events : List DecisionEvent
  positions : Positions
deriving DecidableEq

/-- Embeds process_signal from src/backend/main.py: read the position,
run the decision cascade, emit one decision event, and write the new
position back when it differs from the old one. -/
def process_signal (ps : Positions) (ticker : String) (prediction decision_price : ℚ) :
    ProcessResult :=
  let position_before := get_position ps ticker
  let d := decideAction prediction position_before
  let ev : DecisionEvent :=
    ⟨ticker, decision_price, prediction, d.1, position_before, d.2⟩
  let ps1 := if d.2 ≠ position_before then set_position ps ticker d.2 else ps
  ⟨d.1, [ev], ps1⟩

/-- One trade event, a row of the trades log (a status report for an
order: submitted, filled or error). -/
structure TradeEvent where
  ticker : String
  order_id : String
  side : String
  size : ℚ
  limit_price : ℚ
  status : String
deriving DecidableEq

/-- Embeds submit_order: log one submitted report and, in paper mode,
one filled report at the limit price for the same order id.  The order
id, synthesized from the wall clock in the source, is a parameter. -/
def submit_order (paper : Bool) (oid ticker side : String) (size limit_price : ℚ) :
    List TradeEvent :=
  let submitted : TradeEvent := ⟨ticker, oid, side, size, limit_price, "submitted"⟩
  if paper then [submitted, ⟨ticker, oid, side, size, limit_price, "filled"⟩]
  else [submitted]

/-- A whale event as stored in the in-memory whale buffer. -/
structure WhaleEvent where
  ticker : String
  side_bias : String
  imbalance_strength : ℚ
  max_bid_size : ℤ
  max_ask_size : ℤ
deriving DecidableEq

/-- Embeds the whale-buffer update in check_whale_activity: insert at
the front, keep the first 200 entries. -/
def insert_whale (e : WhaleEvent) (l : List WhaleEvent) : List WhaleEvent :=
  let l1 := e :: l
  if 200 < l1.length then l1.take 200 else l1

/-- A timeline event (timestamp not modelled). -/
structure TimelineEvent where
  kind : String
  ticker : String
  details : String
deriving DecidableEq

/-- Embeds add_timeline_event: insert at the front, keep the first 100
entries. -/
def add_timeline_event (e : TimelineEvent) (l : List TimelineEvent) : List TimelineEvent :=
  let l1 := e :: l
  if 100 < l1.length then l1.take 100 else l1

/-- Result of one check_whale_activity call. -/
structure WhaleResult where
  is_whale : Bool
  side : Option String
  event : Option WhaleEvent
  whales : List WhaleEvent
deriving DecidableEq

/-- Embeds check_whale_activity from src/backend/main.py: the trigger
test, the side attribution for the large-order log, the buffered whale
event with its side_bias label, and the whale-buffer update. -/
def check_whale_activity (ticker : String) (f : Features) (whales : List WhaleEvent) :
    WhaleResult :=
  let max_bid := f.max_bid_size
  let max_ask := f.max_ask_size
  let imbalance := f.imbalance_strength
  if 5000 ≤ max_bid ∨ 5000 ≤ max_ask ∨ 0.25 ≤ imbalance then
    let side := if max_ask < max_bid then "bid" else "ask"
    let ev : WhaleEvent :=
      ⟨ticker, if max_ask < max_bid then "BUY_BIAS" else "SELL_BIAS",
        imbalance, max_bid, max_ask⟩
    ⟨true, some side, some ev, insert_whale ev whales⟩
  else ⟨false, none, none, whales⟩

/-- Result of the per-market segment of one bot-loop iteration. -/
structure StepResult where
  action : Action
  decisions : List DecisionEvent
  trades : List TradeEvent
  positions : Positions
deriving DecidableEq

/-- Embeds the per-market body of bot_loop (src/backend/main.py):
generate the signal from the analyzer features, run process_signal with
the signal score as prediction, and submit one 100-lot order when the
decided action enters a position and the bot runs in paper mode. -/
def marketStep (paper : Bool) (ps : Positions) (ticker : String) (f : Features)
    (mid_price : ℚ) (oid : String) : StepResult :=
  let signal := generate_signal f.bid_ratio f.imbalance_strength
  let r := process_signal ps ticker signal.score mid_price
  let trades :=
    if (r.action = Action.enter_long ∨ r.action = Action.enter_short) ∧ paper = true then
      submit_order paper oid ticker
        (if r.action = Action.enter_long then "buy" else "sell") 100 mid_price
    else []
  ⟨r.action, r.events, trades, r.positions⟩

/-- One position update of the bot loop for one market, driven by the
generated signal: ticker, bid_ratio, imbalance_strength, mid price. -/
def loop_step (ps : Positions) (s : String × ℚ × ℚ × ℚ) : Positions :=
  (process_signal ps s.1 (generate_signal s.2.1 s.2.2.1).score s.2.2.2).positions

/-- The positions map after a sequence of signal-driven updates starting
from the initial empty map. -/
def runLoop (steps : List (String × ℚ × ℚ × ℚ)) : Positions :=
  steps.foldl loop_step ([] : List (String × ℚ))

/-- The generic front-insert-and-truncate pattern shared by the whale
and timeline buffers. -/
def ringInsert {α : Type} (cap : ℕ) (e : α) (l : List α) : List α :=
  let l1 := e :: l
  if cap < l1.length then l1.take cap else l1

lemma insert_whale_eq_ringInsert (e : WhaleEvent) (l : List WhaleEvent) :
    insert_whale e l = ringInsert 200 e l := rfl

lemma add_timeline_event_eq_ringInsert (e : TimelineEvent) (l : List TimelineEvent) :
    add_timeline_event e l = ringInsert 100 e l := rfl

lemma ringInsert_eq_take {α : Type} (cap : ℕ) (e : α) (l : List α) :
    ringInsert cap e l = (e :: l).take cap := by
  show (if cap < (e :: l).length then (e :: l).take cap else (e :: l)) = (e :: l).take cap
  split_ifs with h
  · rfl
  · exact (List.take_of_length_le (not_lt.mp h)).symm

lemma take_append_take {α : Type} (n : ℕ) (A B : List α) :
    (A ++ B.take n).take n = (A ++ B).take n := by
  rw [List.take_append_eq_append_take, List.take_append_eq_append_take, List.take_take,
    min_eq_left (Nat.sub_le n A.length)]

lemma foldl_ringInsert {α : Type} (cap : ℕ) :
    ∀ (evs init : List α), init.length ≤ cap →
      evs.foldl (fun l e => ringInsert cap e l) init = (evs.reverse ++ init).take cap
  | [], init, h => by simp [List.take_of_length_le h]
  | e :: evs, init, h => by
      rw [List.foldl_cons, ringInsert_eq_take,
        foldl_ringInsert cap evs ((e :: init).take cap)
          (le_trans (by rw [List.length_take]; exact Nat.min_le_left _ _) le_rfl),
        take_append_take]
      simp

lemma lookup_set_position_self (ps : Positions) (t : String) (v : ℚ) :
    List.lookup t (set_position ps t v) = some v := by
  induction ps with
  | nil => simp [set_position, List.lookup]
  | cons p rest ih =>
      obtain ⟨t0, v0⟩ := p
      by_cases h : t0 = t
      · simp [set_position, h, List.lookup]
      · have h2 : ¬(t == t0) = true := by
          simp only [beq_iff_eq]
          exact fun e => h e.symm
        simp [set_position, h, List.lookup, h2, ih]

lemma lookup_set_position_ne (ps : Positions) (t u : String) (v : ℚ) (h : u ≠ t) :
    List.lookup u (set_position ps t v) = List.lookup u ps := by
  have hb : (u == t) = false := beq_eq_false_iff_ne.mpr h
  induction ps with
  | nil => simp [set_position, List.lookup, hb]
  | cons p rest ih =>
      obtain ⟨t0, v0⟩ := p
      by_cases h0 : t0 = t
      · subst h0
        simp [set_position, List.lookup, hb]
      · simp [set_position, h0, List.lookup, ih]

lemma get_position_set_self (ps : Positions) (t : String) (v : ℚ) :
    get_position (set_position ps t v) t = v := by
  simp [get_position, lookup_set_position_self]

lemma get_position_set_ne (ps : Positions) (t u : String) (v : ℚ) (h : u ≠ t) :
    get_position (set_position ps t v) u = get_position ps u := by
  simp [get_position, lookup_set_position_ne ps t u v h]

lemma decideAction_hold_snd (pred before : ℚ)
    (h : (decideAction pred before).1 = Action.hold) :
    (decideAction pred before).2 = before := by
  unfold decideAction at *
  split_ifs at *
  all_goals simp_all

lemma decideAction_ne_hold_snd (pred before : ℚ)
    (h : (decideAction pred before).1 ≠ Action.hold) :
    (decideAction pred before).2 ≠ before := by
  unfold decideAction at *
  split_ifs at * with h1 h2 h3
  · intro e
    have := h1.2
    rw [← e] at this
    norm_num at this
  · intro e
    have := h2.2
    rw [← e] at this
    norm_num at this
  · intro e
    exact h3.1 e.symm
  · simp_all

lemma score_cases (br imb : ℚ) :
    (generate_signal br imb).score = 0.5 ∨ 0.75 < (generate_signal br imb).score := by
  unfold generate_signal
  split_ifs with h1 h2
  · right
    show (0.75 : ℚ) < 0.6 + imb
    linarith [h1.1]
  · right
    show (0.75 : ℚ) < 0.6 + imb
    linarith [h2.1]
  · left
    rfl

lemma sell_score (br imb : ℚ)
    (h : (generate_signal br imb).direction = Direction.SELL) :
    (0.6 : ℚ) ≤ (generate_signal br imb).score := by
  unfold generate_signal at h ⊢
  by_cases h1 : (0.15 : ℚ) < imb ∧ (0.55 : ℚ) < br
  · rw [if_pos h1] at h
    exact absurd h (by simp)
  · rw [if_neg h1] at h ⊢
    by_cases h2 : (0.15 : ℚ) < imb ∧ br < 0.45
    · rw [if_pos h2]
      show (0.6 : ℚ) ≤ 0.6 + imb
      linarith [h2.1]
    · rw [if_neg h2] at h
      exact absurd h (by simp)

lemma decideAction_long (pred before : ℚ) (h1 : (0.6 : ℚ) ≤ pred) (h2 : before ≤ 0) :
    decideAction pred before = (Action.enter_long, 100) := by
  unfold decideAction
  rw [if_pos ⟨h1, h2⟩]

lemma process_signal_action (ps : Positions) (t : String) (pred price : ℚ) :
    (process_signal ps t pred price).action =
      (decideAction pred (get_position ps t)).1 := rfl

lemma process_signal_positions (ps : Positions) (t : String) (pred price : ℚ) :
    (process_signal ps t pred price).positions =
      if (decideAction pred (get_position ps t)).2 ≠ get_position ps t then
        set_position ps t (decideAction pred (get_position ps t)).2
      else ps := rfl

lemma process_signal_events (ps : Positions) (t : String) (pred price : ℚ) :
    (process_signal ps t pred price).events =
      [⟨t, price, pred, (decideAction pred (get_position ps t)).1,
        get_position ps t, (decideAction pred (get_position ps t)).2⟩] := rfl

lemma get_position_process_self (ps : Positions) (t : String) (pred price : ℚ) :
    get_position (process_signal ps t pred price).positions t =
      (decideAction pred (get_position ps t)).2 := by
  rw [process_signal_positions]
  by_cases h : (decideAction pred (get_position ps t)).2 ≠ get_position ps t
  · rw [if_pos h, get_position_set_self]
  · rw [if_neg h]
    push_neg at h
    exact h.symm

lemma marketStep_action (paper : Bool) (ps : Positions) (t : String) (f : Features)
    (price : ℚ) (oid : String) :
    (marketStep paper ps t f price oid).action =
      (process_signal ps t (generate_signal f.bid_ratio f.imbalance_strength).score
        price).action := rfl

lemma marketStep_decisions (paper : Bool) (ps : Positions) (t : String) (f : Features)
    (price : ℚ) (oid : String) :
    (marketStep paper ps t f price oid).decisions =
      (process_signal ps t (generate_signal f.bid_ratio f.imbalance_strength).score
        price).events := rfl

lemma marketStep_positions (paper : Bool) (ps : Positions) (t : String) (f : Features)
    (price : ℚ) (oid : String) :
    (marketStep paper ps t f price oid).positions =
      (process_signal ps t (generate_signal f.bid_ratio f.imbalance_strength).score
        price).positions := rfl

lemma marketStep_trades (paper : Bool) (ps : Positions) (t : String) (f : Features)
    (price : ℚ) (oid : String) :
    (marketStep paper ps t f price oid).trades =
      if ((marketStep paper ps t f price oid).action = Action.enter_long ∨
          (marketStep paper ps t f price oid).action = Action.enter_short) ∧
          paper = true then
        submit_order paper oid t
          (if (marketStep paper ps t f price oid).action = Action.enter_long then "buy"
           else "sell") 100 price
      else [] := rfl

/-- All positions in the map are 0 or 100. -/
def PosInv (ps : Positions) : Prop :=
  ∀ t, get_position ps t = 0 ∨ get_position ps t = 100

lemma posInv_nil : PosInv [] := by
  intro t
  left
  rfl

lemma decideAction_snd_cases (pred before : ℚ)
    (hpred : pred = 0.5 ∨ 0.75 < pred) (hbefore : before = 0 ∨ before = 100) :
    (decideAction pred before).2 = 0 ∨ (decideAction pred before).2 = 100 := by
  unfold decideAction
  split_ifs with h1 h2 h3
  · right
    rfl
  · exfalso
    rcases hpred with h | h
    · rw [h] at h2
      norm_num at h2
    · have := h2.1
      linarith
  · left
    rfl
  · exact hbefore

lemma posInv_step (ps : Positions) (hinv : PosInv ps) (s : String × ℚ × ℚ × ℚ) :
    PosInv (loop_step ps s) := by
  intro u
  unfold loop_step
  rw [process_signal_positions]
  by_cases hchg :
      (decideAction (generate_signal s.2.1 s.2.2.1).score (get_position ps s.1)).2 ≠
        get_position ps s.1
  · rw [if_pos hchg]
    by_cases hu : u = s.1
    · subst hu
      rw [get_position_set_self]
      exact decideAction_snd_cases _ _ (score_cases s.2.1 s.2.2.1) (hinv s.1)
    · rw [get_position_set_ne _ _ _ _ hu]
      exact hinv u
  · rw [if_neg hchg]
    exact hinv u

lemma posInv_runLoop (steps : List (String × ℚ × ℚ × ℚ)) : PosInv (runLoop steps) := by
  unfold runLoop
  suffices h : ∀ init, PosInv init → PosInv (steps.foldl loop_step init) from
    h [] posInv_nil
  induction steps with
  | nil => exact fun init h => h
  | cons s rest ih => exact fun init h => ih (loop_step init s) (posInv_step init h s)

/-- The decision rules exactly as the spec words them: the four
position-aware hysteresis cases in order. -/
def decisionSpec (score position : ℚ) : Action × ℚ :=
  if 0.6 ≤ score ∧ position ≤ 0 then (.enter_long, 100)
  else if score ≤ 0.4 ∧ 0 ≤ position then (.enter_short, -100)
  else if position ≠ 0 ∧ (0.45 < score ∧ score < 0.55) then (.exit, 0)
  else (.hold, position)

/-- The signal rules exactly as the spec words them. -/
def signalSpec (bid_ratio imbalance : ℚ) : Signal :=
  if 0.15 < imbalance ∧ 0.55 < bid_ratio then ⟨.BUY, 0.6 + imbalance⟩
  else if 0.15 < imbalance ∧ bid_ratio < 0.45 then ⟨.SELL, 0.6 + imbalance⟩
  else ⟨.HOLD, 0.5⟩

/-- Features with dominant-size tie max_bid_size = max_ask_size = 6000. -/
def tieFeatures : Features := ⟨0, 0, 1/2, 0, 6000, 6000, 0, 100, 100⟩

/-- Features producing a BUY signal of score 0.8. -/
def buyFeatures : Features := ⟨0, 0, 0.6, 0.2, 0, 0, 0, 100, 100⟩

/-- Both sides of an order book with every level shorter than 2 fields
removed, as the claimed skipping behaviour would preprocess it. -/
def dropShortLevels (ob : Orderbook) : Orderbook :=
  ⟨.levels (ob.yes.toLevels.filter (fun l => decide (2 ≤ l.length))),
   .levels (ob.no.toLevels.filter (fun l => decide (2 ≤ l.length)))⟩

/-- C1: the decision step implements exactly the four position-aware
hysteresis rules of the spec, in order; at position 0 a score of 0.65
enters long with position 100, and re-applying the same score at the
resulting position holds and leaves the position at 100. -/
theorem C1_decision_rules :
    (∀ score position : ℚ, decideAction score position = decisionSpec score position) ∧
    (process_signal [] "T" 0.65 50).action = Action.enter_long ∧
    get_position (process_signal [] "T" 0.65 50).positions "T" = 100 ∧
    (process_signal (process_signal [] "T" 0.65 50).positions "T" 0.65 50).action =
      Action.hold ∧
    get_position
      (process_signal (process_signal [] "T" 0.65 50).positions "T" 0.65 50).positions
      "T" = 100 := by
  refine ⟨fun _ _ => rfl, ?_, ?_, ?_, ?_⟩ <;>
    norm_num [process_signal, decideAction, get_position, set_position, List.lookup]

/-- C2 counterexample: on the fully empty order book the analyzer
returns spread 100, not spread 0 as claimed. -/
theorem C2_cex :
    Option.map Features.spread (analyze_orderbook ⟨Side.missing, Side.missing⟩) =
      some 100 ∧
    Option.map Features.spread (analyze_orderbook ⟨Side.missing, Side.missing⟩) ≠
      some 0 := by
  constructor <;>
    norm_num [analyze_orderbook_eq_analyzeT, analyzeT, validSizes, bestPriceOrD, pymax,
      Side.toLevels]

/-- C2 (amended): for every order book whose two sides are empty or
absent, the analyzer returns bid_volume 0, ask_volume 0, bid_ratio 1/2,
imbalance_strength 0, max sizes 0, best_bid 0, best_ask 100 and
spread 100 (the maximally wide synthetic spread). -/
theorem C2_empty_book (ob : Orderbook)
    (hy : ob.yes.toLevels = []) (hn : ob.no.toLevels = []) :
    analyze_orderbook ob = some ⟨0, 0, 1/2, 0, 0, 0, 0, 100, 100⟩ := by
  rw [analyze_orderbook_eq_analyzeT]
  unfold analyzeT
  rw [hy, hn]
  norm_num [validSizes, bestPriceOrD, pymax]

/-- C2 witness: the amended statement evaluated on the order book with
both sides absent. -/
theorem C2_witness :
    analyze_orderbook ⟨Side.missing, Side.missing⟩ =
      some ⟨0, 0, 1/2, 0, 0, 0, 0, 100, 100⟩ :=
  C2_empty_book ⟨Side.missing, Side.missing⟩ rfl rfl

/-- C3 counterexample: the decision step itself mutates the positions
map; at the empty map a prediction of 0.65 leaves position 100 stored
for the ticker, so the map afterwards differs from the map before. -/
theorem C3_cex :
    get_position (process_signal [] "A" 0.65 50).positions "A" = 100 ∧
    get_position ([] : Positions) "A" = 0 ∧
    (process_signal [] "A" 0.65 50).positions ≠ ([] : Positions) := by
  refine ⟨?_, rfl, ?_⟩ <;>
    norm_num [process_signal, decideAction, get_position, set_position, List.lookup]

/-- C3 (amended): the decision step applies the position change itself:
afterwards the ticker holds the decided target position, every other
ticker is unchanged, and the map is left untouched exactly when the
action is hold. -/
theorem C3_ledger (ps : Positions) (t u : String) (pred price : ℚ) (hu : u ≠ t) :
    get_position (process_signal ps t pred price).positions t =
      (decideAction pred (get_position ps t)).2 ∧
    get_position (process_signal ps t pred price).positions u = get_position ps u ∧
    ((process_signal ps t pred price).action = Action.hold ↔
      (process_signal ps t pred price).positions = ps) := by
  refine ⟨get_position_process_self ps t pred price, ?_, ?_⟩
  · rw [process_signal_positions]
    by_cases hchg : (decideAction pred (get_position ps t)).2 ≠ get_position ps t
    · rw [if_pos hchg, get_position_set_ne ps t u _ hu]
    · rw [if_neg hchg]
  · rw [process_signal_action, process_signal_positions]
    by_cases hchg : (decideAction pred (get_position ps t)).2 ≠ get_position ps t
    · rw [if_pos hchg]
      constructor
      · intro hhold
        exact absurd (decideAction_hold_snd pred (get_position ps t) hhold) hchg
      · intro heq
        have h2 := congrArg (fun l => get_position l t) heq
        simp only [get_position_set_self] at h2
        exact absurd h2 hchg
    · rw [if_neg hchg]
      push_neg at hchg
      constructor
      · intro _
        rfl
      · intro _
        by_contra hne
        exact (decideAction_ne_hold_snd pred (get_position ps t) hne) hchg

/-- C3 witness: the amended statement at a concrete entering input. -/
theorem C3_witness :
    get_position (process_signal [] "A" (13/20) 50).positions "A" =
      (decideAction (13/20) (get_position [] "A")).2 ∧
    get_position (process_signal [] "A" (13/20) 50).positions "B" = get_position [] "B" ∧
    ((process_signal [] "A" (13/20) 50).action = Action.hold ↔
      (process_signal [] "A" (13/20) 50).positions = []) :=
  C3_ledger [] "A" "B" (13/20) 50 (by simp)

/-- C4 counterexample: an entering decision in paper mode changes the
position and results in a trade, but two trade events are emitted (one
submitted report and one filled report), not exactly one. -/
theorem C4_cex :
    (marketStep true [] "A" buyFeatures 50 "oid1").action = Action.enter_long ∧
    get_position (marketStep true [] "A" buyFeatures 50 "oid1").positions "A" ≠
      get_position [] "A" ∧
    (marketStep true [] "A" buyFeatures 50 "oid1").trades ≠ [] ∧
    (marketStep true [] "A" buyFeatures 50 "oid1").trades.length = 2 ∧
    (marketStep true [] "A" buyFeatures 50 "oid1").trades.length ≠ 1 := by
  refine ⟨?_, ?_, ?_, ?_, ?_⟩ <;>
    norm_num [marketStep, buyFeatures, generate_signal, process_signal, decideAction,
      get_position, set_position, List.lookup, submit_order]
  simp

/-- C4 (amended): every invocation of the decision step emits exactly
one decision event, also on hold, recording the pre- and post-positions
and the action; an entering decision in paper mode causes exactly one
order submission, which emits exactly two trade events for that one
order id: a submitted report followed by a filled report; in every
other case no trade event is emitted. -/
theorem C4_events (paper : Bool) (ps : Positions) (t : String) (f : Features)
    (price : ℚ) (oid : String) :
    (marketStep paper ps t f price oid).decisions.length = 1 ∧
    (∀ ev ∈ (marketStep paper ps t f price oid).decisions,
      ev.position_before = get_position ps t ∧
      ev.position_after =
        get_position (marketStep paper ps t f price oid).positions t ∧
      ev.action = (marketStep paper ps t f price oid).action) ∧
    (((marketStep paper ps t f price oid).action = Action.enter_long ∨
        (marketStep paper ps t f price oid).action = Action.enter_short) ∧
      paper = true →
        (marketStep paper ps t f price oid).trades.map TradeEvent.status =
          ["submitted", "filled"] ∧
        (marketStep paper ps t f price oid).trades.map TradeEvent.order_id =
          [oid, oid]) ∧
    (¬(((marketStep paper ps t f price oid).action = Action.enter_long ∨
        (marketStep paper ps t f price oid).action = Action.enter_short) ∧
      paper = true) →
        (marketStep paper ps t f price oid).trades = []) := by
  refine ⟨?_, ?_, ?_, ?_⟩
  · rw [marketStep_decisions, process_signal_events]
    rfl
  · intro ev hev
    rw [marketStep_decisions, process_signal_events] at hev
    simp only [List.mem_singleton] at hev
    subst hev
    refine ⟨rfl, ?_, rfl⟩
    rw [marketStep_positions, get_position_process_self]
  · intro hcond
    rw [marketStep_trades, if_pos hcond]
    rcases hcond with ⟨ha, hp⟩
    subst hp
    simp [submit_order]
  · intro hcond
    rw [marketStep_trades, if_neg hcond]

/-- C4 witness: the amended statement at a concrete paper-mode entering
input. -/
theorem C4_witness :
    (marketStep true [] "A" buyFeatures 50 "oid1").trades.map TradeEvent.status =
      ["submitted", "filled"] ∧
    (marketStep true [] "A" buyFeatures 50 "oid1").trades.map TradeEvent.order_id =
      ["oid1", "oid1"] :=
  (C4_events true [] "A" buyFeatures 50 "oid1").2.2.1
    (by
      refine ⟨Or.inl ?_, rfl⟩
      norm_num [marketStep, buyFeatures, generate_signal, process_signal, decideAction,
        get_position, List.lookup])

/-- C5 counterexample: on the exact tie max_bid_size = max_ask_size =
6000 the whale check attributes the side to ask with SELL_BIAS, while
the claim says the bid side wins ties with BUY_BIAS. -/
theorem C5_cex :
    (check_whale_activity "T" tieFeatures []).is_whale = true ∧
    (check_whale_activity "T" tieFeatures []).side = some "ask" ∧
    (check_whale_activity "T" tieFeatures []).side ≠ some "bid" ∧
    Option.map WhaleEvent.side_bias (check_whale_activity "T" tieFeatures []).event =
      some "SELL_BIAS" ∧
    Option.map WhaleEvent.side_bias (check_whale_activity "T" tieFeatures []).event ≠
      some "BUY_BIAS" := by
  refine ⟨?_, ?_, ?_, ?_, ?_⟩ <;>
    norm_num [check_whale_activity, tieFeatures, insert_whale]
  all_goals decide

/-- C5 (amended): when whale detection triggers, the attributed side is
bid exactly when max_bid_size is strictly greater than max_ask_size
(the ask side wins ties), and the side_bias label is BUY_BIAS in
exactly the same case, SELL_BIAS otherwise. -/
theorem C5_side_attribution (t : String) (f : Features) (w : List WhaleEvent)
    (hw : (check_whale_activity t f w).is_whale = true) :
    (f.max_ask_size < f.max_bid_size →
      (check_whale_activity t f w).side = some "bid" ∧
      Option.map WhaleEvent.side_bias (check_whale_activity t f w).event =
        some "BUY_BIAS") ∧
    (f.max_bid_size ≤ f.max_ask_size →
      (check_whale_activity t f w).side = some "ask" ∧
      Option.map WhaleEvent.side_bias (check_whale_activity t f w).event =
        some "SELL_BIAS") := by
  simp only [check_whale_activity] at hw ⊢
  by_cases hcond : 5000 ≤ f.max_bid_size ∨ 5000 ≤ f.max_ask_size ∨
      (0.25 : ℚ) ≤ f.imbalance_strength
  · rw [if_pos hcond]
    constructor
    · intro hlt
      simp [if_pos hlt]
    · intro hle
      simp [if_neg (not_lt.mpr hle)]
  · rw [if_neg hcond] at hw
    exact absurd hw (by simp)

/-- C5 witness: the amended statement at a bid-dominant concrete input. -/
theorem C5_witness :
    (check_whale_activity "T" ⟨0, 0, 1/2, 0, 6000, 100, 0, 100, 100⟩ []).side =
      some "bid" ∧
    Option.map WhaleEvent.side_bias
      (check_whale_activity "T" ⟨0, 0, 1/2, 0, 6000, 100, 0, 100, 100⟩ []).event =
      some "BUY_BIAS" :=
  (C5_side_attribution "T" ⟨0, 0, 1/2, 0, 6000, 100, 0, 100, 100⟩ []
    (by norm_num [check_whale_activity])).1 (by norm_num)

/-- C6: whale detection flags true exactly when max_bid_size is at
least 5000, or max_ask_size is at least 5000, or imbalance_strength is
at least 0.25; each boundary value flags true and inputs strictly below
all three thresholds flag false. -/
theorem C6_whale_trigger :
    (∀ (t : String) (f : Features) (w : List WhaleEvent),
      (check_whale_activity t f w).is_whale = true ↔
        (5000 ≤ f.max_bid_size ∨ 5000 ≤ f.max_ask_size ∨
          (0.25 : ℚ) ≤ f.imbalance_strength)) ∧
    (check_whale_activity "T" ⟨0, 0, 1/2, 0, 5000, 0, 0, 100, 100⟩ []).is_whale = true ∧
    (check_whale_activity "T" ⟨0, 0, 1/2, 0, 0, 5000, 0, 100, 100⟩ []).is_whale = true ∧
    (check_whale_activity "T" ⟨0, 0, 1/2, 1/4, 0, 0, 0, 100, 100⟩ []).is_whale = true ∧
    (check_whale_activity "T" ⟨0, 0, 1/2, 24/100, 4999, 4999, 0, 100, 100⟩ []).is_whale =
      false := by
  refine ⟨fun t f w => ?_, ?_, ?_, ?_, ?_⟩
  · simp only [check_whale_activity]
    by_cases h : 5000 ≤ f.max_bid_size ∨ 5000 ≤ f.max_ask_size ∨
        (0.25 : ℚ) ≤ f.imbalance_strength
    · rw [if_pos h]
      exact iff_of_true rfl h
    · rw [if_neg h]
      exact iff_of_false (by simp) h
  all_goals norm_num [check_whale_activity]

/-- C7: the signal policy maps features to BUY with score 0.6 plus
imbalance when imbalance exceeds 0.15 and bid_ratio exceeds 0.55, to
SELL with the same score when imbalance exceeds 0.15 and bid_ratio is
below 0.45, and to HOLD with score 0.5 otherwise; in particular
imbalance 0.2 with bid_ratio 0.6 gives BUY at 0.8 and imbalance 0.05
with bid_ratio 0.9 gives HOLD. -/
theorem C7_signal_rules :
    (∀ br imb : ℚ, generate_signal br imb = signalSpec br imb) ∧
    generate_signal 0.6 0.2 = ⟨Direction.BUY, 0.8⟩ ∧
    generate_signal 0.9 0.05 = ⟨Direction.HOLD, 0.5⟩ := by
  refine ⟨fun _ _ => rfl, ?_, ?_⟩ <;> norm_num [generate_signal]

/-- C8 counterexample: short levels are not skipped everywhere; with
the yes side [[5], [7, 3]] the analyzer takes best_bid 0 from the
default because the first level is short, while analyzing the book
with short levels removed yields best_bid 7, so the two results
differ. -/
theorem C8_cex :
    Option.map Features.best_bid
      (analyze_orderbook ⟨Side.levels [[5], [7, 3]], Side.missing⟩) = some 0 ∧
    Option.map Features.best_bid
      (analyze_orderbook (dropShortLevels ⟨Side.levels [[5], [7, 3]], Side.missing⟩)) =
      some 7 ∧
    analyze_orderbook ⟨Side.levels [[5], [7, 3]], Side.missing⟩ ≠
      analyze_orderbook (dropShortLevels ⟨Side.levels [[5], [7, 3]], Side.missing⟩) := by
  refine ⟨?_, ?_, ?_⟩ <;>
    norm_num [analyze_orderbook_eq_analyzeT, analyzeT, validSizes, bestPriceOrD, pymax,
      dropShortLevels, Side.toLevels, List.filter]

/-- C8 (amended): the analyzer is total on arbitrary raw input: every
Python subscript is guarded so it never fails and always returns the
complete feature record described by the total function analyzeT, in
which missing or invalid sides are treated as empty, levels with fewer
than 2 fields are skipped in the volume and max-size aggregations, and
best bid/ask read only the first level of each side, falling back to
the defaults 0 and 100 when that level is absent or short. -/
theorem C8_total (ob : Orderbook) :
    analyze_orderbook ob = some (analyzeT ob) ∧
    analyze_orderbook ob =
      analyze_orderbook ⟨Side.levels ob.yes.toLevels, Side.levels ob.no.toLevels⟩ :=
  ⟨analyze_orderbook_eq_analyzeT ob, rfl⟩

/-- C8 witness: the amended statement evaluated on a malformed book
with an invalid yes side. -/
theorem C8_witness :
    analyze_orderbook ⟨Side.invalid, Side.levels [[40, 10]]⟩ =
      some (analyzeT ⟨Side.invalid, Side.levels [[40, 10]]⟩) ∧
    analyze_orderbook ⟨Side.invalid, Side.levels [[40, 10]]⟩ =
      analyze_orderbook ⟨Side.levels [], Side.levels [[40, 10]]⟩ :=
  C8_total ⟨Side.invalid, Side.levels [[40, 10]]⟩

/-- C9: starting from the empty buffers, after any sequence of
insertions the whale buffer holds at most 200 entries and the timeline
buffer at most 100; each buffer equals the newest-first listing of all
inserted events truncated at its cap, so the oldest entries at the tail
are the ones evicted. -/
theorem C9_ring_buffers :
    (∀ ws : List WhaleEvent,
      (ws.foldl (fun l e => insert_whale e l) []).length ≤ 200 ∧
      ws.foldl (fun l e => insert_whale e l) [] = ws.reverse.take 200) ∧
    (∀ ts : List TimelineEvent,
      (ts.foldl (fun l e => add_timeline_event e l) []).length ≤ 100 ∧
      ts.foldl (fun l e => add_timeline_event e l) [] = ts.reverse.take 100) := by
  constructor
  · intro ws
    have h : ws.foldl (fun l e => insert_whale e l) [] = ws.reverse.take 200 := by
      simp only [insert_whale_eq_ringInsert]
      simpa using foldl_ringInsert 200 ws [] (by simp)
    refine ⟨?_, h⟩
    rw [h, List.length_take]
    exact Nat.min_le_left _ _
  · intro ts
    have h : ts.foldl (fun l e => add_timeline_event e l) [] = ts.reverse.take 100 := by
      simp only [add_timeline_event_eq_ringInsert]
      simpa using foldl_ringInsert 100 ts [] (by simp)
    refine ⟨?_, h⟩
    rw [h, List.length_take]
    exact Nat.min_le_left _ _

lemma score_not_le_04 (br imb : ℚ) : ¬ (generate_signal br imb).score ≤ 0.4 := by
  rcases score_cases br imb with h | h
  · rw [h]
    norm_num
  · intro hle
    have : (0.75 : ℚ) < 0.4 := lt_of_lt_of_le h hle
    norm_num at this

lemma decideAction_ne_short (pred before : ℚ) (h : ¬ pred ≤ 0.4) :
    (decideAction pred before).1 ≠ Action.enter_short := by
  unfold decideAction
  split_ifs with h1 h2 h3
  · simp
  · exact absurd h2.1 h
  · simp
  · simp

/-- C10: signal scores are exactly 0.5 or strictly above 0.75; hence a
prediction taken from the signal generator never satisfies the 0.4
enter-short threshold, the decision step driven by generated signals
never returns enter_short, every position reachable by the bot loop
from the empty map is 0 or 100, and a SELL signal arriving at a
non-positive position produces enter_long. -/
theorem C10_policy_composition :
    (∀ br imb : ℚ, (generate_signal br imb).score = 0.5 ∨
      (0.75 : ℚ) < (generate_signal br imb).score) ∧
    (∀ br imb : ℚ, ¬ (generate_signal br imb).score ≤ 0.4) ∧
    (∀ (ps : Positions) (t : String) (br imb price : ℚ),
      (process_signal ps t (generate_signal br imb).score price).action ≠
        Action.enter_short) ∧
    (∀ (steps : List (String × ℚ × ℚ × ℚ)) (t : String),
      get_position (runLoop steps) t = 0 ∨ get_position (runLoop steps) t = 100) ∧
    (∀ (ps : Positions) (t : String) (br imb price : ℚ),
      (generate_signal br imb).direction = Direction.SELL →
      get_position ps t ≤ 0 →
        (process_signal ps t (generate_signal br imb).score price).action =
          Action.enter_long) := by
  refine ⟨score_cases, score_not_le_04, ?_, fun steps t => posInv_runLoop steps t, ?_⟩
  · intro ps t br imb price
    rw [process_signal_action]
    exact decideAction_ne_short _ _ (score_not_le_04 br imb)
  · intro ps t br imb price hdir hpos
    rw [process_signal_action, decideAction_long _ _ (sell_score br imb hdir) hpos]

/-- C10 witness: a concrete SELL signal at the empty position map
enters long. -/
theorem C10_witness :
    (process_signal [] "A" (generate_signal 0.4 0.2).score 50).action =
      Action.enter_long :=
  C10_policy_composition.2.2.2.2 [] "A" 0.4 0.2 50
    (by norm_num [generate_signal]) (by norm_num [get_position, List.lookup])

end KalshiProto
